import Mathlib

/-!
Shallow embedding of `src/transmission_line.py`.

Python floats are modelled as extended values `FVal`: a finite real number,
`inf`, `neginf` or `nan`, with the IEEE-754 special-value rules for the
operations the script uses (signed zero is not modelled; every zero the
script can feed into a division or logarithm is a `+0`, so the positive
rule is used).  Finite arithmetic is idealised as exact real arithmetic.

True division of two plain Python floats raises `ZeroDivisionError` when
the divisor is zero, while NumPy operations (`np.sqrt`, `np.log`, and any
arithmetic involving a NumPy scalar such as the result of `np.sqrt`) never
raise and produce `nan`/`inf` instead.  The embedding therefore uses the
fallible `pydivR` exactly at the division sites whose operands are both
plain Python floats (`.../sigma_c`, `D/d`, `1/a`, `1/b`, `b/a`) and the
total `np`-operations everywhere else; divisions by the nonzero constants
`np.pi` and `2*np.pi` are written as plain real division.
-/

/-- An IEEE-754 double idealised: a finite (exact) real, or a special value. -/
inductive FVal : Type where
  | fin : ℝ → FVal
  | inf : FVal
  | neginf : FVal
  | nan : FVal

/-- The only exception the script can raise on finite float inputs. -/
inductive PyErr : Type where
  | zeroDivisionError : PyErr
deriving DecidableEq

/-- IEEE addition (overflow of finite sums is not modelled). -/
noncomputable def npadd : FVal → FVal → FVal
  | .nan, _ => .nan
  | .fin x, .fin y => .fin (x + y)
  | .fin _, .inf => .inf
  | .fin _, .neginf => .neginf
  | .fin _, .nan => .nan
  | .inf, .fin _ => .inf
  | .inf, .inf => .inf
  | .inf, .neginf => .nan
  | .inf, .nan => .nan
  | .neginf, .fin _ => .neginf
  | .neginf, .inf => .nan
  | .neginf, .neginf => .neginf
  | .neginf, .nan => .nan

/-- IEEE multiplication: `0 * inf = nan`, signs propagate. -/
noncomputable def npmul : FVal → FVal → FVal
  | .nan, _ => .nan
  | .fin x, .fin y => .fin (x * y)
  | .fin x, .inf => if 0 < x then .inf else if x < 0 then .neginf else .nan
  | .fin x, .neginf => if 0 < x then .neginf else if x < 0 then .inf else .nan
  | .fin _, .nan => .nan
  | .inf, .fin y => if 0 < y then .inf else if y < 0 then .neginf else .nan
  | .inf, .inf => .inf
  | .inf, .neginf => .neginf
  | .inf, .nan => .nan
  | .neginf, .fin y => if 0 < y then .neginf else if y < 0 then .inf else .nan
  | .neginf, .inf => .neginf
  | .neginf, .neginf => .inf
  | .neginf, .nan => .nan

/-- IEEE (NumPy) division: never raises; finite/0 gives a signed infinity
(the divisor zeros reached in the script are `+0`), `0/0` gives `nan`. -/
noncomputable def npdiv : FVal → FVal → FVal
  | .nan, _ => .nan
  | .fin x, .fin y =>
      if y = 0 then (if 0 < x then .inf else if x < 0 then .neginf else .nan)
      else .fin (x / y)
  | .fin _, .inf => .fin 0
  | .fin _, .neginf => .fin 0
  | .fin _, .nan => .nan
  | .inf, .fin y => if y < 0 then .neginf else .inf
  | .inf, .inf => .nan
  | .inf, .neginf => .nan
  | .inf, .nan => .nan
  | .neginf, .fin y => if y < 0 then .inf else .neginf
  | .neginf, .inf => .nan
  | .neginf, .neginf => .nan
  | .neginf, .nan => .nan

/-- Embedding of `np.sqrt`: `nan` on negative arguments (warning, no exception). -/
noncomputable def npsqrt : FVal → FVal
  | .fin x => if x < 0 then .nan else .fin (Real.sqrt x)
  | .inf => .inf
  | .neginf => .nan
  | .nan => .nan

/-- Embedding of `np.log`: `-inf` at `0`, `nan` on negative arguments (warning, no exception). -/
noncomputable def nplog : FVal → FVal
  | .fin x => if x < 0 then .nan else if x = 0 then .neginf else .fin (Real.log x)
  | .inf => .inf
  | .neginf => .nan
  | .nan => .nan

/-- Plain-Python float division: raises `ZeroDivisionError` on a zero divisor. -/
noncomputable def pydivR (x y : ℝ) : Except PyErr ℝ :=
  if y = 0 then .error .zeroDivisionError else .ok (x / y)

/-- The constant `epsilon_0 = 8.854e-12`, vacuum permittivity (F/m), as in the script. -/
noncomputable def epsilon_0 : ℝ := 8.854e-12

/-- The constant `mu_0 = 4 * np.pi * 1e-7`, vacuum permeability (H/m), as in the script. -/
noncomputable def mu_0 : ℝ := 4 * Real.pi * 1e-7

/-- Embedding of `cal_two_wire_params` from `src/transmission_line.py`: R, L, C, G of a
two-wire line, returned as the insertion-ordered key/value list of the
Python result dict. -/
noncomputable def cal_two_wire_params
    (d D epsilon_r mu_ri mu_rc sigma sigma_c length freq : ℝ) :
    Except PyErr (List (String × FVal)) := do
  let epsilon : ℝ := epsilon_0 * epsilon_r
  let mu_c : ℝ := mu_0 * mu_rc
  let mu_i : ℝ := mu_0 * mu_ri
  -- Rs = np.sqrt(np.pi * freq * mu_c / sigma_c); the argument is a plain
  -- Python float division that raises when sigma_c == 0.
  let Rs_arg ← pydivR (Real.pi * freq * mu_c) sigma_c
  let Rs : FVal := npsqrt (.fin Rs_arg)
  -- R_per_m = 2 * Rs / (np.pi * d): Rs is a NumPy scalar, so this division
  -- never raises (it yields inf/nan when d == 0).
  let R_per_m : FVal := npdiv (npmul (.fin 2) Rs) (.fin (Real.pi * d))
  -- D/d is a plain Python float division, raising when d == 0; the script
  -- evaluates it (identically) three times, first in the L line.
  let ratio ← pydivR D d
  let acosh_arg : FVal := npadd (.fin ratio) (npsqrt (.fin (ratio ^ 2 - 1)))
  let L_per_m : FVal := npmul (.fin (mu_i / Real.pi)) (nplog acosh_arg)
  let C_per_m : FVal := npdiv (.fin (Real.pi * epsilon)) (nplog acosh_arg)
  let G_per_m : FVal := npdiv (.fin (Real.pi * sigma)) (nplog acosh_arg)
  return [("R", npmul R_per_m (.fin length)),
          ("L", npmul L_per_m (.fin length)),
          ("C", npmul C_per_m (.fin length)),
          ("G", npmul G_per_m (.fin length))]

/-- Embedding of `cal_coaxial_params` from `src/transmission_line.py`: R, L, C, G of a
coaxial line, returned as the insertion-ordered key/value list of the
Python result dict. -/
noncomputable def cal_coaxial_params
    (a b epsilon_r mu_ri mu_rc sigma sigma_c length freq : ℝ) :
    Except PyErr (List (String × FVal)) := do
  let epsilon : ℝ := epsilon_0 * epsilon_r
  let mu_c : ℝ := mu_0 * mu_rc
  let mu_i : ℝ := mu_0 * mu_ri
  let Rs_arg ← pydivR (Real.pi * freq * mu_c) sigma_c
  let Rs : FVal := npsqrt (.fin Rs_arg)
  -- R_per_m = Rs/(2*np.pi) * (1/a + 1/b): 1/a and 1/b are plain Python
  -- divisions, raising when a == 0 resp. b == 0 (in that order).
  let inv_a ← pydivR 1 a
  let inv_b ← pydivR 1 b
  let R_per_m : FVal := npmul (npdiv Rs (.fin (2 * Real.pi))) (.fin (inv_a + inv_b))
  -- b/a is a plain Python division; with a ≠ 0 already ensured by 1/a it
  -- cannot raise here.
  let ratio ← pydivR b a
  let L_per_m : FVal := npmul (.fin (mu_i / (2 * Real.pi))) (nplog (.fin ratio))
  let C_per_m : FVal := npdiv (.fin (2 * Real.pi * epsilon)) (nplog (.fin ratio))
  let G_per_m : FVal := npdiv (.fin (2 * Real.pi * sigma)) (nplog (.fin ratio))
  return [("R", npmul R_per_m (.fin length)),
          ("L", npmul L_per_m (.fin length)),
          ("C", npmul C_per_m (.fin length)),
          ("G", npmul G_per_m (.fin length))]

/-- Key lookup in a computation result: `none` when the computation raised
or the key is absent from the returned dict. -/
def getKey (k : String) : Except PyErr (List (String × FVal)) → Option FVal
  | .ok m => m.lookup k
  | .error _ => none

theorem pydivR_ok (x : ℝ) {y : ℝ} (hy : y ≠ 0) : pydivR x y = .ok (x / y) := by
  simp [pydivR, hy]

theorem exceptOkBind {α β : Type} (v : α) (f : α → Except PyErr β) :
    (Except.ok v >>= f : Except PyErr β) = f v := rfl

theorem npmul_fin (x y : ℝ) : npmul (.fin x) (.fin y) = .fin (x * y) := rfl

theorem npadd_fin (x y : ℝ) : npadd (.fin x) (.fin y) = .fin (x + y) := rfl

theorem npsqrt_fin {x : ℝ} (hx : 0 ≤ x) : npsqrt (.fin x) = .fin (Real.sqrt x) := by
  simp [npsqrt, not_lt.mpr hx]

theorem nplog_fin {x : ℝ} (hx : 0 < x) : nplog (.fin x) = .fin (Real.log x) := by
  simp [nplog, not_lt.mpr hx.le, hx.ne.symm]

theorem npdiv_fin (x : ℝ) {y : ℝ} (hy : y ≠ 0) :
    npdiv (.fin x) (.fin y) = .fin (x / y) := by
  simp [npdiv, hy]

/-- Under the two raise conditions being absent (`sigma_c ≠ 0`, `d ≠ 0`),
`cal_two_wire_params` returns its dict, whose entries are the literal
floating-point expressions of the script. -/
theorem cal_two_wire_params_eval (d D epsilon_r mu_ri mu_rc sigma sigma_c length freq : ℝ)
    (hs : sigma_c ≠ 0) (hd : d ≠ 0) :
    cal_two_wire_params d D epsilon_r mu_ri mu_rc sigma sigma_c length freq =
      .ok [("R", npmul (npdiv (npmul (.fin 2)
                  (npsqrt (.fin (Real.pi * freq * (mu_0 * mu_rc) / sigma_c))))
                  (.fin (Real.pi * d))) (.fin length)),
           ("L", npmul (npmul (.fin (mu_0 * mu_ri / Real.pi))
                  (nplog (npadd (.fin (D / d)) (npsqrt (.fin ((D / d) ^ 2 - 1))))))
                  (.fin length)),
           ("C", npmul (npdiv (.fin (Real.pi * (epsilon_0 * epsilon_r)))
                  (nplog (npadd (.fin (D / d)) (npsqrt (.fin ((D / d) ^ 2 - 1))))))
                  (.fin length)),
           ("G", npmul (npdiv (.fin (Real.pi * sigma))
                  (nplog (npadd (.fin (D / d)) (npsqrt (.fin ((D / d) ^ 2 - 1))))))
                  (.fin length))] := by
  simp [cal_two_wire_params, pydivR_ok _ hs, pydivR_ok _ hd, exceptOkBind]

/-- Under the raise conditions being absent (`sigma_c ≠ 0`, `a ≠ 0`, `b ≠ 0`),
`cal_coaxial_params` returns its dict, whose entries are the literal
floating-point expressions of the script. -/
theorem cal_coaxial_params_eval (a b epsilon_r mu_ri mu_rc sigma sigma_c length freq : ℝ)
    (hs : sigma_c ≠ 0) (ha : a ≠ 0) (hb : b ≠ 0) :
    cal_coaxial_params a b epsilon_r mu_ri mu_rc sigma sigma_c length freq =
      .ok [("R", npmul (npmul (npdiv
                  (npsqrt (.fin (Real.pi * freq * (mu_0 * mu_rc) / sigma_c)))
                  (.fin (2 * Real.pi))) (.fin (1 / a + 1 / b))) (.fin length)),
           ("L", npmul (npmul (.fin (mu_0 * mu_ri / (2 * Real.pi)))
                  (nplog (.fin (b / a)))) (.fin length)),
           ("C", npmul (npdiv (.fin (2 * Real.pi * (epsilon_0 * epsilon_r)))
                  (nplog (.fin (b / a)))) (.fin length)),
           ("G", npmul (npdiv (.fin (2 * Real.pi * sigma))
                  (nplog (.fin (b / a)))) (.fin length))] := by
  simp [cal_coaxial_params, pydivR_ok _ hs, pydivR_ok _ ha, pydivR_ok _ hb, exceptOkBind]

theorem mu_0_nonneg : 0 ≤ mu_0 := by
  unfold mu_0
  positivity

theorem one_lt_acosh_arg {r : ℝ} (hr : 1 < r) : 1 < r + Real.sqrt (r ^ 2 - 1) := by
  have h := Real.sqrt_nonneg (r ^ 2 - 1)
  linarith

theorem log_acosh_pos {r : ℝ} (hr : 1 < r) :
    0 < Real.log (r + Real.sqrt (r ^ 2 - 1)) :=
  Real.log_pos (one_lt_acosh_arg hr)

theorem sq_sub_one_nonneg {r : ℝ} (hr : 1 < r) : 0 ≤ r ^ 2 - 1 := by
  nlinarith

/-- Closed finite form of the two-wire result on valid inputs (shared). -/
theorem two_wire_closed (d D epsilon_r mu_ri mu_rc sigma sigma_c length freq : ℝ)
    (hratio : 1 < D / d) (hs : 0 < sigma_c) (hf : 0 ≤ freq)
    (hmu : 0 ≤ mu_rc) :
    cal_two_wire_params d D epsilon_r mu_ri mu_rc sigma sigma_c length freq =
      .ok [("R", .fin (2 * Real.sqrt (Real.pi * freq * (mu_0 * mu_rc) / sigma_c) /
                  (Real.pi * d) * length)),
           ("L", .fin (mu_0 * mu_ri / Real.pi *
                  Real.log (D / d + Real.sqrt ((D / d) ^ 2 - 1)) * length)),
           ("C", .fin (Real.pi * (epsilon_0 * epsilon_r) /
                  Real.log (D / d + Real.sqrt ((D / d) ^ 2 - 1)) * length)),
           ("G", .fin (Real.pi * sigma /
                  Real.log (D / d + Real.sqrt ((D / d) ^ 2 - 1)) * length))] := by
  have hd : d ≠ 0 := by
    intro h
    rw [h, div_zero] at hratio
    exact absurd hratio (by norm_num)
  have hsa : 0 ≤ Real.pi * freq * (mu_0 * mu_rc) / sigma_c :=
    div_nonneg (mul_nonneg (mul_nonneg Real.pi_pos.le hf)
      (mul_nonneg mu_0_nonneg hmu)) hs.le
  have harg : 1 < D / d + Real.sqrt ((D / d) ^ 2 - 1) := one_lt_acosh_arg hratio
  have hlog : Real.log (D / d + Real.sqrt ((D / d) ^ 2 - 1)) ≠ 0 :=
    (log_acosh_pos hratio).ne'
  rw [cal_two_wire_params_eval _ _ _ _ _ _ _ _ _ hs.ne' hd,
      npsqrt_fin hsa, npsqrt_fin (sq_sub_one_nonneg hratio), npadd_fin,
      nplog_fin (lt_trans one_pos harg)]
  simp only [npmul_fin, npdiv_fin _ (mul_ne_zero Real.pi_ne_zero hd),
    npdiv_fin _ hlog]

/-- C1: for `D/d > 1`, `sigma_c > 0`, `f ≥ 0` and `length ≥ 0` (with a
nonnegative conductor permeability so that the skin-effect square root is
real), the two-wire model returns
`R = (2·sqrt(π·f·μ0·μrc/σc)/(π·d))·length`,
`L = ((μ0·μri/π)·ln(D/d + sqrt((D/d)² − 1)))·length` and
`C = ((π·8.854e-12·εr)/ln(D/d + sqrt((D/d)² − 1)))·length`,
with `μ0 = 4·π·1e-7` (finite arithmetic idealised as exact reals). -/
theorem two_wire_formulas (d D epsilon_r mu_ri mu_rc sigma sigma_c length freq : ℝ)
    (hratio : 1 < D / d) (hs : 0 < sigma_c) (hf : 0 ≤ freq) (hlen : 0 ≤ length)
    (hmu : 0 ≤ mu_rc) :
    cal_two_wire_params d D epsilon_r mu_ri mu_rc sigma sigma_c length freq =
      .ok [("R", .fin (2 * Real.sqrt (Real.pi * freq * (mu_0 * mu_rc) / sigma_c) /
                  (Real.pi * d) * length)),
           ("L", .fin (mu_0 * mu_ri / Real.pi *
                  Real.log (D / d + Real.sqrt ((D / d) ^ 2 - 1)) * length)),
           ("C", .fin (Real.pi * (epsilon_0 * epsilon_r) /
                  Real.log (D / d + Real.sqrt ((D / d) ^ 2 - 1)) * length)),
           ("G", .fin (Real.pi * sigma /
                  Real.log (D / d + Real.sqrt ((D / d) ^ 2 - 1)) * length))] :=
  two_wire_closed d D epsilon_r mu_ri mu_rc sigma sigma_c length freq hratio hs hf hmu

theorem two_wire_formulas_witness :
    cal_two_wire_params 1 2 1 1 1 0 1 1 0 =
      .ok [("R", .fin (2 * Real.sqrt (Real.pi * 0 * (mu_0 * 1) / 1) /
                  (Real.pi * 1) * 1)),
           ("L", .fin (mu_0 * 1 / Real.pi *
                  Real.log (2 / 1 + Real.sqrt ((2 / 1) ^ 2 - 1)) * 1)),
           ("C", .fin (Real.pi * (epsilon_0 * 1) /
                  Real.log (2 / 1 + Real.sqrt ((2 / 1) ^ 2 - 1)) * 1)),
           ("G", .fin (Real.pi * 0 /
                  Real.log (2 / 1 + Real.sqrt ((2 / 1) ^ 2 - 1)) * 1))] :=
  two_wire_formulas 1 2 1 1 1 0 1 1 0 (by norm_num) (by norm_num) (by norm_num)
    (by norm_num) (by norm_num)

/-- Closed finite form of the coaxial result on valid inputs (shared). -/
theorem coaxial_closed (a b epsilon_r mu_ri mu_rc sigma sigma_c length freq : ℝ)
    (hratio : 1 < b / a) (hs : 0 < sigma_c) (hf : 0 ≤ freq)
    (hmu : 0 ≤ mu_rc) :
    cal_coaxial_params a b epsilon_r mu_ri mu_rc sigma sigma_c length freq =
      .ok [("R", .fin (Real.sqrt (Real.pi * freq * (mu_0 * mu_rc) / sigma_c) /
                  (2 * Real.pi) * (1 / a + 1 / b) * length)),
           ("L", .fin (mu_0 * mu_ri / (2 * Real.pi) * Real.log (b / a) * length)),
           ("C", .fin (2 * Real.pi * (epsilon_0 * epsilon_r) /
                  Real.log (b / a) * length)),
           ("G", .fin (2 * Real.pi * sigma / Real.log (b / a) * length))] := by
  have ha : a ≠ 0 := by
    intro h
    rw [h, div_zero] at hratio
    exact absurd hratio (by norm_num)
  have hb : b ≠ 0 := by
    intro h
    rw [h, zero_div] at hratio
    exact absurd hratio (by norm_num)
  have hsa : 0 ≤ Real.pi * freq * (mu_0 * mu_rc) / sigma_c :=
    div_nonneg (mul_nonneg (mul_nonneg Real.pi_pos.le hf)
      (mul_nonneg mu_0_nonneg hmu)) hs.le
  have hlog : Real.log (b / a) ≠ 0 := (Real.log_pos hratio).ne'
  rw [cal_coaxial_params_eval _ _ _ _ _ _ _ _ _ hs.ne' ha hb,
      npsqrt_fin hsa, nplog_fin (lt_trans one_pos hratio)]
  simp only [npmul_fin, npdiv_fin _ (mul_ne_zero two_ne_zero Real.pi_ne_zero),
    npdiv_fin _ hlog]

/-- C2: for `b/a > 1`, `sigma_c > 0`, `f ≥ 0` and `length ≥ 0` (with a
nonnegative conductor permeability), the coaxial model returns
`R = ((Rs/(2π))·(1/a + 1/b))·length` with `Rs = sqrt(π·f·μ0·μrc/σc)`,
`L = ((μ0·μri/(2π))·ln(b/a))·length` and
`C = ((2π·8.854e-12·εr)/ln(b/a))·length`
(finite arithmetic idealised as exact reals). -/
theorem coaxial_formulas (a b epsilon_r mu_ri mu_rc sigma sigma_c length freq : ℝ)
    (hratio : 1 < b / a) (hs : 0 < sigma_c) (hf : 0 ≤ freq) (hlen : 0 ≤ length)
    (hmu : 0 ≤ mu_rc) :
    cal_coaxial_params a b epsilon_r mu_ri mu_rc sigma sigma_c length freq =
      .ok [("R", .fin (Real.sqrt (Real.pi * freq * (mu_0 * mu_rc) / sigma_c) /
                  (2 * Real.pi) * (1 / a + 1 / b) * length)),
           ("L", .fin (mu_0 * mu_ri / (2 * Real.pi) * Real.log (b / a) * length)),
           ("C", .fin (2 * Real.pi * (epsilon_0 * epsilon_r) /
                  Real.log (b / a) * length)),
           ("G", .fin (2 * Real.pi * sigma / Real.log (b / a) * length))] :=
  coaxial_closed a b epsilon_r mu_ri mu_rc sigma sigma_c length freq hratio hs hf hmu

theorem coaxial_formulas_witness :
    cal_coaxial_params 1 2 1 1 1 0 1 1 0 =
      .ok [("R", .fin (Real.sqrt (Real.pi * 0 * (mu_0 * 1) / 1) /
                  (2 * Real.pi) * (1 / 1 + 1 / 2) * 1)),
           ("L", .fin (mu_0 * 1 / (2 * Real.pi) * Real.log (2 / 1) * 1)),
           ("C", .fin (2 * Real.pi * (epsilon_0 * 1) / Real.log (2 / 1) * 1)),
           ("G", .fin (2 * Real.pi * 0 / Real.log (2 / 1) * 1))] :=
  coaxial_formulas 1 2 1 1 1 0 1 1 0 (by norm_num) (by norm_num) (by norm_num)
    (by norm_num) (by norm_num)

theorem getKey_ok (k : String) (m : List (String × FVal)) : getKey k (.ok m) = m.lookup k := rfl

theorem npsqrt_neg {x : ℝ} (hx : x < 0) : npsqrt (.fin x) = .nan := by
  simp [npsqrt, hx]

theorem nplog_neg {x : ℝ} (hx : x < 0) : nplog (.fin x) = .nan := by
  simp [nplog, hx]

theorem npdiv_fin_zero_pos {x : ℝ} (hx : 0 < x) : npdiv (.fin x) (.fin 0) = .inf := by
  simp [npdiv, hx]

theorem npmul_inf_fin_pos {y : ℝ} (hy : 0 < y) : npmul .inf (.fin y) = .inf := by
  simp [npmul, hy]

theorem npmul_nan_fin (y : ℝ) : npmul .nan (.fin y) = .nan := rfl

/-- The argument of the two-wire logarithm produces `nan` whenever the
radius ratio is strictly below `1` (either the square root of a negative
number, or the logarithm of a nonpositive number). -/
theorem nplog_acosh_nan {r : ℝ} (hr : r < 1) :
    nplog (npadd (.fin r) (npsqrt (.fin (r ^ 2 - 1)))) = .nan := by
  rcases lt_or_le (r ^ 2 - 1) 0 with h | h
  · rw [npsqrt_neg h]
    rfl
  · have hr1 : r ≤ -1 := by nlinarith
    have h2 : Real.sqrt (r ^ 2 - 1) < -r :=
      (Real.sqrt_lt' (by linarith)).mpr (by nlinarith)
    rw [npsqrt_fin h, npadd_fin, nplog_neg (by linarith)]

theorem nplog_acosh_one :
    nplog (npadd (.fin (1 : ℝ)) (npsqrt (.fin ((1 : ℝ) ^ 2 - 1)))) = .fin (Real.log 1) := by
  have h0 : ((1 : ℝ) ^ 2 - 1) = 0 := by norm_num
  rw [h0, npsqrt_fin le_rfl, Real.sqrt_zero, npadd_fin, add_zero, nplog_fin one_pos]

theorem pi_eps_pos {e : ℝ} (he : 0 < e) : 0 < Real.pi * (epsilon_0 * e) := by
  unfold epsilon_0
  positivity

/-- C3 counterexample: at `d = 1, D = 1` (so `D/d = 1`) the two-wire model
does not fail at all: it returns a result whose `C` value is `+inf`
(division by `log 1 = 0`).  No `InvalidGeometryError` exists in the code. -/
theorem geometry_not_validated_cex :
    getKey "C" (cal_two_wire_params 1 1 1 1 1 0 1 1 0) = some .inf := by
  rw [cal_two_wire_params_eval 1 1 1 1 1 0 1 1 0 one_ne_zero one_ne_zero]
  have h11 : ((1 : ℝ) / 1) = 1 := by norm_num
  rw [h11, nplog_acosh_one, Real.log_one, npdiv_fin_zero_pos (pi_eps_pos one_pos),
    npmul_inf_fin_pos one_pos]
  rfl

/-- C3 (amended): the models perform no geometry validation.  For a ratio
of outer to inner dimension at most `1` (nonzero denominators, `σc ≠ 0`,
positive `εr` and `length`), no error is raised: the computation succeeds,
at ratio exactly `1` both models return an infinite `C` value, and for
`D/d < 1` the two-wire model returns `C = nan`. -/
theorem ratio_le_one_not_rejected
    (d D a b epsilon_r mu_ri mu_rc sigma sigma_c length freq : ℝ)
    (hd : d ≠ 0) (ha : a ≠ 0) (hb : b ≠ 0) (hs : sigma_c ≠ 0)
    (heps : 0 < epsilon_r) (hlen : 0 < length) :
    ((cal_two_wire_params d D epsilon_r mu_ri mu_rc sigma sigma_c length freq).isOk = true ∧
      (D / d = 1 → getKey "C"
        (cal_two_wire_params d D epsilon_r mu_ri mu_rc sigma sigma_c length freq) = some .inf) ∧
      (D / d < 1 → getKey "C"
        (cal_two_wire_params d D epsilon_r mu_ri mu_rc sigma sigma_c length freq) = some .nan)) ∧
    ((cal_coaxial_params a b epsilon_r mu_ri mu_rc sigma sigma_c length freq).isOk = true ∧
      (b / a = 1 → getKey "C"
        (cal_coaxial_params a b epsilon_r mu_ri mu_rc sigma sigma_c length freq) = some .inf)) := by
  rw [cal_two_wire_params_eval _ _ _ _ _ _ _ _ _ hs hd,
    cal_coaxial_params_eval _ _ _ _ _ _ _ _ _ hs ha hb]
  refine ⟨⟨rfl, ?_, ?_⟩, rfl, ?_⟩
  · intro h1
    rw [h1, nplog_acosh_one, Real.log_one, npdiv_fin_zero_pos (pi_eps_pos heps),
      npmul_inf_fin_pos hlen]
    rfl
  · intro h1
    rw [nplog_acosh_nan h1]
    rfl
  · intro h1
    rw [h1, nplog_fin one_pos, Real.log_one]
    have h2 : 0 < 2 * Real.pi * (epsilon_0 * epsilon_r) := by
      have := pi_eps_pos heps
      linarith
    rw [npdiv_fin_zero_pos h2, npmul_inf_fin_pos hlen]
    rfl

theorem ratio_le_one_not_rejected_witness :
    ((cal_two_wire_params 1 1 1 1 1 0 1 1 0).isOk = true ∧
      ((1 : ℝ) / 1 = 1 → getKey "C" (cal_two_wire_params 1 1 1 1 1 0 1 1 0) = some .inf) ∧
      ((1 : ℝ) / 1 < 1 → getKey "C" (cal_two_wire_params 1 1 1 1 1 0 1 1 0) = some .nan)) ∧
    ((cal_coaxial_params 1 1 1 1 1 0 1 1 0).isOk = true ∧
      ((1 : ℝ) / 1 = 1 → getKey "C" (cal_coaxial_params 1 1 1 1 1 0 1 1 0) = some .inf)) :=
  ratio_le_one_not_rejected 1 1 1 1 1 1 1 0 1 1 0 one_ne_zero one_ne_zero one_ne_zero
    one_ne_zero one_pos one_pos

theorem pydivR_zero (x : ℝ) : pydivR x 0 = .error .zeroDivisionError := by
  simp [pydivR]

theorem exceptErrorBind {α β : Type} (e : PyErr) (f : α → Except PyErr β) :
    (Except.error e >>= f : Except PyErr β) = .error e := rfl

theorem npmul_nan (v : FVal) : npmul .nan v = .nan := by
  cases v <;> rfl

theorem npmul_fin_nan (x : ℝ) : npmul (.fin x) .nan = .nan := rfl

theorem npdiv_nan (v : FVal) : npdiv .nan v = .nan := by
  cases v <;> rfl

/-- C4 counterexample: at `σc = -1` (so `σc ≤ 0`) the two-wire model does
not fail at all: the computation succeeds (the square root of a negative
number is a quiet `nan`).  No `InvalidMaterialError` exists in the code. -/
theorem material_not_validated_cex :
    (cal_two_wire_params 1 2 1 1 1 0 (-1) 1 1).isOk = true := by
  rw [cal_two_wire_params_eval 1 2 1 1 1 0 (-1) 1 1 (by norm_num) one_ne_zero]
  rfl

/-- C4 (amended): the models perform no material validation.  `σc = 0`
raises `ZeroDivisionError` (the skin-effect term divides by the
conductivity), not an `InvalidMaterialError`; and whenever the skin-effect
argument `π·f·μc/σc` is negative (e.g. `σc < 0` with `f > 0`, or `f < 0`
with `σc > 0`), both models succeed and return `R = nan`. -/
theorem material_not_validated
    (d D a b epsilon_r mu_ri mu_rc sigma sigma_c length freq : ℝ)
    (hd : d ≠ 0) (ha : a ≠ 0) (hb : b ≠ 0) :
    (sigma_c = 0 →
      cal_two_wire_params d D epsilon_r mu_ri mu_rc sigma sigma_c length freq =
        .error .zeroDivisionError ∧
      cal_coaxial_params a b epsilon_r mu_ri mu_rc sigma sigma_c length freq =
        .error .zeroDivisionError) ∧
    (Real.pi * freq * (mu_0 * mu_rc) / sigma_c < 0 →
      getKey "R" (cal_two_wire_params d D epsilon_r mu_ri mu_rc sigma sigma_c length freq) =
        some .nan ∧
      getKey "R" (cal_coaxial_params a b epsilon_r mu_ri mu_rc sigma sigma_c length freq) =
        some .nan) := by
  constructor
  · intro h0
    subst h0
    constructor
    · simp [cal_two_wire_params, pydivR_zero, exceptErrorBind]
    · simp [cal_coaxial_params, pydivR_zero, exceptErrorBind]
  · intro hneg
    have hs : sigma_c ≠ 0 := by
      intro h0
      rw [h0, div_zero] at hneg
      exact absurd hneg (lt_irrefl 0)
    rw [cal_two_wire_params_eval _ _ _ _ _ _ _ _ _ hs hd,
      cal_coaxial_params_eval _ _ _ _ _ _ _ _ _ hs ha hb,
      npsqrt_neg hneg]
    constructor
    · rfl
    · rfl

theorem material_not_validated_witness :
    (((-1 : ℝ)) = 0 →
      cal_two_wire_params 1 2 1 1 1 0 (-1) 1 60 = .error .zeroDivisionError ∧
      cal_coaxial_params 1 2 1 1 1 0 (-1) 1 60 = .error .zeroDivisionError) ∧
    (Real.pi * 60 * (mu_0 * 1) / (-1) < 0 →
      getKey "R" (cal_two_wire_params 1 2 1 1 1 0 (-1) 1 60) = some .nan ∧
      getKey "R" (cal_coaxial_params 1 2 1 1 1 0 (-1) 1 60) = some .nan) :=
  material_not_validated 1 2 1 2 1 1 1 0 (-1) 1 60 one_ne_zero one_ne_zero two_ne_zero

/-- C5 counterexample: with dielectric conductivity `σ = 0` (the "not
supplied" case), the two-wire result still contains the key `G`, with
value `0`, instead of omitting it. -/
theorem conductance_always_present_cex :
    getKey "G" (cal_two_wire_params 1 2 1 1 1 0 1 1 0) = some (.fin 0) := by
  rw [cal_two_wire_params_eval 1 2 1 1 1 0 1 1 0 one_ne_zero one_ne_zero]
  have h21 : ((2 : ℝ) / 1) = 2 := by norm_num
  rw [h21, npsqrt_fin (by norm_num : (0 : ℝ) ≤ 2 ^ 2 - 1), npadd_fin,
    nplog_fin (lt_trans one_pos (one_lt_acosh_arg one_lt_two)),
    npdiv_fin (Real.pi * 0) (log_acosh_pos one_lt_two).ne', npmul_fin]
  have hzero : Real.pi * 0 / Real.log (2 + Real.sqrt ((2 : ℝ) ^ 2 - 1)) = 0 := by
    norm_num
  rw [hzero, npmul_fin 0 1, zero_mul]
  rfl

/-- C5 (amended): `σ` is a required parameter and the result mapping of
both models always contains the key `G`; in particular with `σ = 0` the
key is present (with a zero per-unit conductance), not omitted. -/
theorem conductance_always_present
    (d D a b epsilon_r mu_ri mu_rc sigma_c length freq : ℝ)
    (hd : d ≠ 0) (ha : a ≠ 0) (hb : b ≠ 0) (hs : sigma_c ≠ 0) :
    (getKey "G" (cal_two_wire_params d D epsilon_r mu_ri mu_rc 0 sigma_c length freq)).isSome
      = true ∧
    (getKey "G" (cal_coaxial_params a b epsilon_r mu_ri mu_rc 0 sigma_c length freq)).isSome
      = true := by
  rw [cal_two_wire_params_eval _ _ _ _ _ _ _ _ _ hs hd,
    cal_coaxial_params_eval _ _ _ _ _ _ _ _ _ hs ha hb]
  exact ⟨rfl, rfl⟩

theorem conductance_always_present_witness :
    (getKey "G" (cal_two_wire_params 1 2 1 1 1 0 1 1 60)).isSome = true ∧
    (getKey "G" (cal_coaxial_params 1 2 1 1 1 0 1 1 60)).isSome = true :=
  conductance_always_present 1 2 1 2 1 1 1 1 1 60 one_ne_zero one_ne_zero two_ne_zero
    one_ne_zero

theorem lookup_quad (k : String) (v1 v2 v3 v4 w1 w2 w3 w4 : FVal)
    (h1 : w1 = npmul (.fin 2) v1) (h2 : w2 = npmul (.fin 2) v2)
    (h3 : w3 = npmul (.fin 2) v3) (h4 : w4 = npmul (.fin 2) v4) :
    List.lookup k [("R", w1), ("L", w2), ("C", w3), ("G", w4)] =
      Option.map (npmul (.fin 2)) (List.lookup k [("R", v1), ("L", v2), ("C", v3), ("G", v4)]) := by
  cases hR : (k == "R") <;> cases hL : (k == "L") <;> cases hC : (k == "C") <;>
    cases hG : (k == "G") <;> simp [List.lookup, hR, hL, hC, hG, h1, h2, h3, h4]

theorem fin_mul_two_scale (e x : ℝ) :
    FVal.fin (e * (2 * x)) = npmul (.fin 2) (.fin (e * x)) := by
  rw [npmul_fin]
  exact congrArg FVal.fin (by ring)

/-- C6: on valid inputs, doubling `length` exactly doubles every output
field of both models: each of `R`, `L`, `C`, `G` is linear in `length`. -/
theorem outputs_linear_in_length
    (d D a b epsilon_r mu_ri mu_rc sigma sigma_c freq x : ℝ) (k : String)
    (htw : 1 < D / d) (hco : 1 < b / a) (hs : 0 < sigma_c) (hf : 0 ≤ freq)
    (hmu : 0 ≤ mu_rc) :
    getKey k (cal_two_wire_params d D epsilon_r mu_ri mu_rc sigma sigma_c (2 * x) freq) =
      Option.map (npmul (.fin 2))
        (getKey k (cal_two_wire_params d D epsilon_r mu_ri mu_rc sigma sigma_c x freq)) ∧
    getKey k (cal_coaxial_params a b epsilon_r mu_ri mu_rc sigma sigma_c (2 * x) freq) =
      Option.map (npmul (.fin 2))
        (getKey k (cal_coaxial_params a b epsilon_r mu_ri mu_rc sigma sigma_c x freq)) := by
  constructor
  · rw [two_wire_closed d D epsilon_r mu_ri mu_rc sigma sigma_c (2 * x) freq htw hs hf hmu,
      two_wire_closed d D epsilon_r mu_ri mu_rc sigma sigma_c x freq htw hs hf hmu,
      getKey_ok, getKey_ok]
    exact lookup_quad k _ _ _ _ _ _ _ _ (fin_mul_two_scale _ x) (fin_mul_two_scale _ x)
      (fin_mul_two_scale _ x) (fin_mul_two_scale _ x)
  · rw [coaxial_closed a b epsilon_r mu_ri mu_rc sigma sigma_c (2 * x) freq hco hs hf hmu,
      coaxial_closed a b epsilon_r mu_ri mu_rc sigma sigma_c x freq hco hs hf hmu,
      getKey_ok, getKey_ok]
    exact lookup_quad k _ _ _ _ _ _ _ _ (fin_mul_two_scale _ x) (fin_mul_two_scale _ x)
      (fin_mul_two_scale _ x) (fin_mul_two_scale _ x)

theorem outputs_linear_in_length_witness :
    getKey "R" (cal_two_wire_params 1 2 1 1 1 0 1 (2 * 1) 60) =
      Option.map (npmul (.fin 2)) (getKey "R" (cal_two_wire_params 1 2 1 1 1 0 1 1 60)) ∧
    getKey "R" (cal_coaxial_params 1 2 1 1 1 0 1 (2 * 1) 60) =
      Option.map (npmul (.fin 2)) (getKey "R" (cal_coaxial_params 1 2 1 1 1 0 1 1 60)) :=
  outputs_linear_in_length 1 2 1 2 1 1 1 0 1 60 1 "R" (by norm_num) (by norm_num)
    one_pos (by norm_num) (by norm_num)

theorem mu_0_pos : 0 < mu_0 := by
  unfold mu_0
  positivity

/-- C7: with `a = 0.000813, b = 0.02` for the coaxial model and
`d = 0.000813, D = 0.02` for the two-wire model (identical material
parameters `εr = μri = μrc = 1`, `σ = 0`, `σc = 1`, `freq = 0`,
`length = 1`, so the two ratios agree), the two models produce different
`L` values and different `C` values: the formulas are not interchangeable. -/
theorem formulas_not_interchanged :
    getKey "L" (cal_two_wire_params 0.000813 0.02 1 1 1 0 1 1 0) ≠
      getKey "L" (cal_coaxial_params 0.000813 0.02 1 1 1 0 1 1 0) ∧
    getKey "C" (cal_two_wire_params 0.000813 0.02 1 1 1 0 1 1 0) ≠
      getKey "C" (cal_coaxial_params 0.000813 0.02 1 1 1 0 1 1 0) := by
  have hρ : (1 : ℝ) < 0.02 / 0.000813 := by norm_num
  have hρ0 : (0 : ℝ) < 0.02 / 0.000813 := lt_trans one_pos hρ
  have hB : 0 < Real.log (0.02 / 0.000813) := Real.log_pos hρ
  have hA : Real.log (0.02 / 0.000813) ≤
      Real.log (0.02 / 0.000813 + Real.sqrt ((0.02 / 0.000813) ^ 2 - 1)) :=
    Real.log_le_log hρ0 (le_add_of_nonneg_right (Real.sqrt_nonneg _))
  rw [two_wire_closed 0.000813 0.02 1 1 1 0 1 1 0 hρ one_pos le_rfl zero_le_one,
    coaxial_closed 0.000813 0.02 1 1 1 0 1 1 0 hρ one_pos le_rfl zero_le_one]
  constructor
  · show some (FVal.fin (mu_0 * 1 / Real.pi *
        Real.log (0.02 / 0.000813 + Real.sqrt ((0.02 / 0.000813) ^ 2 - 1)) * 1)) ≠
      some (FVal.fin (mu_0 * 1 / (2 * Real.pi) * Real.log (0.02 / 0.000813) * 1))
    have key : mu_0 * 1 / Real.pi *
          Real.log (0.02 / 0.000813 + Real.sqrt ((0.02 / 0.000813) ^ 2 - 1)) * 1 -
        mu_0 * 1 / (2 * Real.pi) * Real.log (0.02 / 0.000813) * 1 =
        mu_0 / (2 * Real.pi) *
          (2 * Real.log (0.02 / 0.000813 + Real.sqrt ((0.02 / 0.000813) ^ 2 - 1)) -
            Real.log (0.02 / 0.000813)) := by
      field_simp
      ring
    have hpos : 0 < mu_0 / (2 * Real.pi) *
        (2 * Real.log (0.02 / 0.000813 + Real.sqrt ((0.02 / 0.000813) ^ 2 - 1)) -
          Real.log (0.02 / 0.000813)) :=
      mul_pos (div_pos mu_0_pos (by positivity)) (by linarith)
    intro h
    simp only [Option.some.injEq, FVal.fin.injEq] at h
    rw [h] at key
    rw [sub_self] at key
    exact absurd key.symm hpos.ne'
  · show some (FVal.fin (Real.pi * (epsilon_0 * 1) /
        Real.log (0.02 / 0.000813 + Real.sqrt ((0.02 / 0.000813) ^ 2 - 1)) * 1)) ≠
      some (FVal.fin (2 * Real.pi * (epsilon_0 * 1) / Real.log (0.02 / 0.000813) * 1))
    have hA0 : 0 < Real.log (0.02 / 0.000813 + Real.sqrt ((0.02 / 0.000813) ^ 2 - 1)) :=
      lt_of_lt_of_le hB hA
    intro h
    simp only [Option.some.injEq, FVal.fin.injEq] at h
    have heps : (0 : ℝ) < epsilon_0 := by unfold epsilon_0; norm_num
    -- cross-multiply: π·ε·B = 2·π·ε·A forces B = 2·A, impossible since B ≤ A < 2A
    rw [div_mul_eq_mul_div, div_mul_eq_mul_div, div_eq_div_iff hA0.ne' hB.ne'] at h
    nlinarith [mul_pos (mul_pos Real.pi_pos heps) hA0,
      mul_pos (mul_pos Real.pi_pos heps) hB]

/-- C8: both models are deterministic pure functions: invocations on equal
inputs yield equal results (in the embedding the computations are pure by
construction; the script reads and writes no external state). -/
theorem models_deterministic
    (d D a b epsilon_r mu_ri mu_rc sigma sigma_c length freq
     d' D' a' b' epsilon_r' mu_ri' mu_rc' sigma' sigma_c' length' freq' : ℝ)
    (h1 : d = d') (h2 : D = D') (h3 : a = a') (h4 : b = b')
    (h5 : epsilon_r = epsilon_r') (h6 : mu_ri = mu_ri') (h7 : mu_rc = mu_rc')
    (h8 : sigma = sigma') (h9 : sigma_c = sigma_c') (h10 : length = length')
    (h11 : freq = freq') :
    cal_two_wire_params d D epsilon_r mu_ri mu_rc sigma sigma_c length freq =
      cal_two_wire_params d' D' epsilon_r' mu_ri' mu_rc' sigma' sigma_c' length' freq' ∧
    cal_coaxial_params a b epsilon_r mu_ri mu_rc sigma sigma_c length freq =
      cal_coaxial_params a' b' epsilon_r' mu_ri' mu_rc' sigma' sigma_c' length' freq' := by
  subst h1 h2 h3 h4 h5 h6 h7 h8 h9 h10 h11
  exact ⟨rfl, rfl⟩

theorem models_deterministic_witness :
    cal_two_wire_params 1 2 1 1 1 0 1 1 60 = cal_two_wire_params 1 2 1 1 1 0 1 1 60 ∧
    cal_coaxial_params 1 2 1 1 1 0 1 1 60 = cal_coaxial_params 1 2 1 1 1 0 1 1 60 :=
  models_deterministic 1 2 1 2 1 1 1 0 1 1 60 1 2 1 2 1 1 1 0 1 1 60
    rfl rfl rfl rfl rfl rfl rfl rfl rfl rfl rfl

/-- C9 counterexample: at `σc = 0` the two-wire computation is not total:
the plain-Python division `np.pi * freq * mu_c / sigma_c` raises
`ZeroDivisionError`, so no mapping is returned at all. -/
theorem totality_cex :
    cal_two_wire_params 1 2 1 1 1 0 0 1 1 = .error .zeroDivisionError := by
  simp [cal_two_wire_params, pydivR_zero, exceptErrorBind]

/-- C9 (amended): except when a plain-Python division by zero occurs
(`σc = 0` or `d = 0` for the two-wire model; `σc = 0`, `a = 0` or `b = 0`
for the coaxial model, each raising `ZeroDivisionError`), the computations
are total: they raise nothing and return a mapping containing all four
keys `R`, `L`, `C` and `G`, whose values may be `nan` or infinite. -/
theorem total_except_zero_division
    (d D a b epsilon_r mu_ri mu_rc sigma sigma_c length freq : ℝ)
    (hs : sigma_c ≠ 0) (hd : d ≠ 0) (ha : a ≠ 0) (hb : b ≠ 0) :
    (cal_two_wire_params d D epsilon_r mu_ri mu_rc sigma sigma_c length freq).isOk = true ∧
    (getKey "R" (cal_two_wire_params d D epsilon_r mu_ri mu_rc sigma sigma_c length freq)).isSome = true ∧
    (getKey "L" (cal_two_wire_params d D epsilon_r mu_ri mu_rc sigma sigma_c length freq)).isSome = true ∧
    (getKey "C" (cal_two_wire_params d D epsilon_r mu_ri mu_rc sigma sigma_c length freq)).isSome = true ∧
    (getKey "G" (cal_two_wire_params d D epsilon_r mu_ri mu_rc sigma sigma_c length freq)).isSome = true ∧
    (cal_coaxial_params a b epsilon_r mu_ri mu_rc sigma sigma_c length freq).isOk = true ∧
    (getKey "R" (cal_coaxial_params a b epsilon_r mu_ri mu_rc sigma sigma_c length freq)).isSome = true ∧
    (getKey "L" (cal_coaxial_params a b epsilon_r mu_ri mu_rc sigma sigma_c length freq)).isSome = true ∧
    (getKey "C" (cal_coaxial_params a b epsilon_r mu_ri mu_rc sigma sigma_c length freq)).isSome = true ∧
    (getKey "G" (cal_coaxial_params a b epsilon_r mu_ri mu_rc sigma sigma_c length freq)).isSome = true := by
  rw [cal_two_wire_params_eval _ _ _ _ _ _ _ _ _ hs hd,
    cal_coaxial_params_eval _ _ _ _ _ _ _ _ _ hs ha hb]
  exact ⟨rfl, rfl, rfl, rfl, rfl, rfl, rfl, rfl, rfl, rfl⟩

theorem total_except_zero_division_witness :
    (cal_two_wire_params 1 0.5 1 1 1 0 (-1) 1 60).isOk = true ∧
    (getKey "R" (cal_two_wire_params 1 0.5 1 1 1 0 (-1) 1 60)).isSome = true ∧
    (getKey "L" (cal_two_wire_params 1 0.5 1 1 1 0 (-1) 1 60)).isSome = true ∧
    (getKey "C" (cal_two_wire_params 1 0.5 1 1 1 0 (-1) 1 60)).isSome = true ∧
    (getKey "G" (cal_two_wire_params 1 0.5 1 1 1 0 (-1) 1 60)).isSome = true ∧
    (cal_coaxial_params 1 0.5 1 1 1 0 (-1) 1 60).isOk = true ∧
    (getKey "R" (cal_coaxial_params 1 0.5 1 1 1 0 (-1) 1 60)).isSome = true ∧
    (getKey "L" (cal_coaxial_params 1 0.5 1 1 1 0 (-1) 1 60)).isSome = true ∧
    (getKey "C" (cal_coaxial_params 1 0.5 1 1 1 0 (-1) 1 60)).isSome = true ∧
    (getKey "G" (cal_coaxial_params 1 0.5 1 1 1 0 (-1) 1 60)).isSome = true :=
  total_except_zero_division 1 0.5 1 0.5 1 1 1 0 (-1) 1 60 (by norm_num) one_ne_zero
    one_ne_zero (by norm_num)

/-- C10: with `f = 0`, `σc > 0` and valid geometry, both models return
`R = 0` (the skin-effect surface resistance is `sqrt(0) = 0`), and the
`L`, `C`, `G` outputs are identical to those at any other frequency: the
frequency enters only through the skin-effect term of `R`. -/
theorem zero_frequency_dc
    (d D a b epsilon_r mu_ri mu_rc sigma sigma_c length : ℝ)
    (htw : 1 < D / d) (hco : 1 < b / a) (hs : 0 < sigma_c) :
    getKey "R" (cal_two_wire_params d D epsilon_r mu_ri mu_rc sigma sigma_c length 0) =
      some (.fin 0) ∧
    getKey "R" (cal_coaxial_params a b epsilon_r mu_ri mu_rc sigma sigma_c length 0) =
      some (.fin 0) ∧
    ∀ freq : ℝ,
      getKey "L" (cal_two_wire_params d D epsilon_r mu_ri mu_rc sigma sigma_c length freq) =
        getKey "L" (cal_two_wire_params d D epsilon_r mu_ri mu_rc sigma sigma_c length 0) ∧
      getKey "C" (cal_two_wire_params d D epsilon_r mu_ri mu_rc sigma sigma_c length freq) =
        getKey "C" (cal_two_wire_params d D epsilon_r mu_ri mu_rc sigma sigma_c length 0) ∧
      getKey "G" (cal_two_wire_params d D epsilon_r mu_ri mu_rc sigma sigma_c length freq) =
        getKey "G" (cal_two_wire_params d D epsilon_r mu_ri mu_rc sigma sigma_c length 0) ∧
      getKey "L" (cal_coaxial_params a b epsilon_r mu_ri mu_rc sigma sigma_c length freq) =
        getKey "L" (cal_coaxial_params a b epsilon_r mu_ri mu_rc sigma sigma_c length 0) ∧
      getKey "C" (cal_coaxial_params a b epsilon_r mu_ri mu_rc sigma sigma_c length freq) =
        getKey "C" (cal_coaxial_params a b epsilon_r mu_ri mu_rc sigma sigma_c length 0) ∧
      getKey "G" (cal_coaxial_params a b epsilon_r mu_ri mu_rc sigma sigma_c length freq) =
        getKey "G" (cal_coaxial_params a b epsilon_r mu_ri mu_rc sigma sigma_c length 0) := by
  have hd : d ≠ 0 := by
    intro h
    rw [h, div_zero] at htw
    exact absurd htw (by norm_num)
  have ha : a ≠ 0 := by
    intro h
    rw [h, div_zero] at hco
    exact absurd hco (by norm_num)
  have hb : b ≠ 0 := by
    intro h
    rw [h, zero_div] at hco
    exact absurd hco (by norm_num)
  have h0 : Real.pi * 0 * (mu_0 * mu_rc) / sigma_c = 0 := by
    simp
  refine ⟨?_, ?_, ?_⟩
  · rw [cal_two_wire_params_eval _ _ _ _ _ _ _ _ _ hs.ne' hd, h0,
      npsqrt_fin le_rfl, Real.sqrt_zero, npmul_fin 2 0, mul_zero,
      npdiv_fin 0 (mul_ne_zero Real.pi_ne_zero hd), zero_div,
      npmul_fin 0 length, zero_mul]
    rfl
  · rw [cal_coaxial_params_eval _ _ _ _ _ _ _ _ _ hs.ne' ha hb, h0,
      npsqrt_fin le_rfl, Real.sqrt_zero,
      npdiv_fin 0 (mul_ne_zero two_ne_zero Real.pi_ne_zero), zero_div,
      npmul_fin 0 (1 / a + 1 / b), zero_mul, npmul_fin 0 length, zero_mul]
    rfl
  · intro freq
    rw [cal_two_wire_params_eval d D _ _ _ _ _ _ freq hs.ne' hd,
      cal_two_wire_params_eval d D _ _ _ _ _ _ 0 hs.ne' hd,
      cal_coaxial_params_eval a b _ _ _ _ _ _ freq hs.ne' ha hb,
      cal_coaxial_params_eval a b _ _ _ _ _ _ 0 hs.ne' ha hb]
    exact ⟨rfl, rfl, rfl, rfl, rfl, rfl⟩

theorem zero_frequency_dc_witness :
    getKey "R" (cal_two_wire_params 1 2 1 1 1 0 1 1 0) = some (.fin 0) ∧
    getKey "R" (cal_coaxial_params 1 2 1 1 1 0 1 1 0) = some (.fin 0) ∧
    (getKey "L" (cal_two_wire_params 1 2 1 1 1 0 1 1 60) =
      getKey "L" (cal_two_wire_params 1 2 1 1 1 0 1 1 0) ∧
    getKey "C" (cal_two_wire_params 1 2 1 1 1 0 1 1 60) =
      getKey "C" (cal_two_wire_params 1 2 1 1 1 0 1 1 0) ∧
    getKey "G" (cal_two_wire_params 1 2 1 1 1 0 1 1 60) =
      getKey "G" (cal_two_wire_params 1 2 1 1 1 0 1 1 0) ∧
    getKey "L" (cal_coaxial_params 1 2 1 1 1 0 1 1 60) =
      getKey "L" (cal_coaxial_params 1 2 1 1 1 0 1 1 0) ∧
    getKey "C" (cal_coaxial_params 1 2 1 1 1 0 1 1 60) =
      getKey "C" (cal_coaxial_params 1 2 1 1 1 0 1 1 0) ∧
    getKey "G" (cal_coaxial_params 1 2 1 1 1 0 1 1 60) =
      getKey "G" (cal_coaxial_params 1 2 1 1 1 0 1 1 0)) :=
  ⟨(zero_frequency_dc 1 2 1 2 1 1 1 0 1 1 (by norm_num) (by norm_num) one_pos).1,
   (zero_frequency_dc 1 2 1 2 1 1 1 0 1 1 (by norm_num) (by norm_num) one_pos).2.1,
   (zero_frequency_dc 1 2 1 2 1 1 1 0 1 1 (by norm_num) (by norm_num) one_pos).2.2 60⟩
